import Mathlib

/-!
Verification of the `uidresp`/`uidscan` UID-discovery pair against its
natural-language specification.

Strings are embedded as `List Char`.  The responder (`src/uidresp.h`,
`src/main.cpp`) is a pure state machine `respStep`; the scanner
(`src/uidscan.cpp`) is a fuel-indexed interpreter `scanGo` over an oracle
that supplies the reply (if any) to each line the scanner writes.
-/

/-- Constant `MATCH_LEFT` from `uidresp.h`: length of the left (prefix) anchor. -/
def MATCH_LEFT : Nat := 2

/-- Embedding of `UidResponder::matches` (uidresp.h lines 29-48; the name
`matches` is a reserved word in Lean).  The two `for` loops of the source
are embedded as `List.all` over `List.range`. -/
def matchesUid (input uid : List Char) : Bool :=
  if input = [] then false
  else
    let len := input.length
    if uid.length < len then false
    else
      let left := min MATCH_LEFT len
      let right := if MATCH_LEFT < len then len - MATCH_LEFT else 0
      ((List.range left).all fun i => input.get? i == uid.get? i) &&
      ((List.range right).all fun i =>
        input.get? (MATCH_LEFT + i) == uid.get? (uid.length - right + i))

/-- The character-mixture loop that forms the body of
`UidResponder::generateCollision` *below* its first `return` statement
(uidresp.h lines 68-85).  It is dead code in the source; it is modelled here
separately so that the unconditional early return of `generateCollision`
can be stated and compared against it.  `pick i n` models the value drawn
from `uniform_int_distribution(0, n-1)` at the `i`-th position; it is
reduced mod the candidate count to stay in range. -/
def collisionMixtureGo (pick : Nat → Nat → Nat) (uids : List (List Char))
    (maxLen : Nat) : Nat → Nat → List Char
  | _, 0 => []
  | i, fuel + 1 =>
    if i < maxLen then
      let candidates := (uids.filterMap fun uid => uid.get? i)
      if candidates = [] then []
      else
        candidates.getD (pick i candidates.length % candidates.length) ' '
          :: collisionMixtureGo pick uids maxLen (i + 1) fuel
    else []

/-- Entry point of the mixture loop: position `0`, enough fuel for every
position. -/
def collisionMixture (pick : Nat → Nat → Nat) (uids : List (List Char))
    (maxLen : Nat) : List Char :=
  collisionMixtureGo pick uids maxLen 0 maxLen

/-- Embedding of `UidResponder::generateCollision` (uidresp.h lines 63-86).
The first statement of the body is `return "";` (with the comment "emulate
empty string only collision. will fix later"), so the function returns the
empty string unconditionally and the mixture loop after it — modelled by
`collisionMixture` — is unreachable.  The default argument `maxLen = 19` of
the source is passed explicitly by callers here. -/
def generateCollision (pick : Nat → Nat → Nat) (uids : List (List Char))
    (maxLen : Nat) : List Char :=
  []

/-- Responder state: the `uids` vector built from `argv` and the `muted`
`std::set` (main.cpp lines 40-41).  The set is modelled as a duplicate-free
list: `insert` appends when absent, `erase` removes. -/
structure RState where
  uids : List (List Char)
  muted : List (List Char)
deriving DecidableEq, Repr

/-- Test whether `p` is a prefix of `l`, as `line.rfind(p, 0) == 0` does. -/
def startsWith (p l : List Char) : Bool := l.take p.length == p

def SETADDRp : List Char := "SETADDR:".toList
def RESETADDRp : List Char := "RESETADDR:".toList
def RESETALLp : List Char := "RESETALL".toList

/-- Head-of-`matched` CB test from main.cpp lines 100-101:
`matched[0].size() >= 2 && matched[0][0] == 'C' && matched[0][1] == 'B'`. -/
def headIsCB (matched : List (List Char)) : Bool :=
  match matched with
  | [] => false
  | h :: _ => decide (2 ≤ h.length) && (h.get? 0 == some 'C') && (h.get? 1 == some 'B')

/-- The `matched` vector built by the pattern-matching branch of the
responder loop (main.cpp lines 85-91): the known UIDs, in `argv` order,
that are not muted and match the line. -/
def matchedOf (st : RState) (line : List Char) : List (List Char) :=
  st.uids.filter fun uid => !(st.muted.contains uid) && matchesUid line uid

/-- One iteration of the responder's read-eval-reply loop
(main.cpp lines 44-111) on a single input line.  Returns the new state and
`some l` when the line `l` (followed by a newline, flushed) is written to
stdout, `none` when nothing is written.  Diagnostics on stderr are not
modelled. -/
def respStep (pick : Nat → Nat → Nat) (st : RState) (line : List Char) :
    RState × Option (List Char) :=
  if line = [] then (st, none)
  else if startsWith SETADDRp line then
    let uid := line.drop 8
    if uid ∈ st.uids then
      ({ st with muted := if uid ∈ st.muted then st.muted else st.muted ++ [uid] },
        none)
    else (st, none)
  else if startsWith RESETADDRp line then
    let uid := line.drop 10
    if uid ∈ st.muted then ({ st with muted := st.muted.erase uid }, none)
    else (st, none)
  else if line = RESETALLp then ({ st with muted := [] }, none)
  else
    let matched := matchedOf st line
    match matched with
    | [] => (st, none)
    | [u] => (st, some u)
    | _ :: _ :: _ =>
      let noise := generateCollision pick matched 19
      let noise :=
        if headIsCB matched then ([] : List Char)
        else generateCollision pick matched 19
      (st, some noise)

/-- Fold `respStep` over a list of input lines (the `while (getline)` loop),
discarding output: the resulting responder state. -/
def runResponder (pick : Nat → Nat → Nat) (uids : List (List Char))
    (lines : List (List Char)) : RState :=
  lines.foldl (fun st l => (respStep pick st l).1) ⟨uids, []⟩

/-- A fixed trivial entropy source, usable wherever the (ignored) RNG
argument is required. -/
def pick0 : Nat → Nat → Nat := fun _ _ => 0

/-! ## Specification-side predicates -/

/-- The matching rule as the spec words it (claim C1): the probe is
non-empty, fits in the UID, its first `min(2,|P|)` characters equal the
first characters of the UID and the rest equal the last characters of the
UID. -/
def specMatch (p u : List Char) : Prop :=
  p ≠ [] ∧ p.length ≤ u.length ∧
    p.take (min 2 p.length) = u.take (min 2 p.length) ∧
    p.drop (min 2 p.length) = u.drop (u.length - (p.length - min 2 p.length))

instance (p u : List Char) : Decidable (specMatch p u) := by
  unfold specMatch; infer_instance

/-! ## Scanner (`uidscan.cpp`) -/

/-- Constant `MAXLEN` from uidscan.cpp line 30: uid length without the prefix. -/
def MAXLEN : Nat := 17

/-- Constant `CHARSET` from uidscan.cpp lines 31-34. -/
def CHARSET : List Char :=
  "0123456789ABCDEFGHIJKLMNOPQRSTUVWXYZabcdefghijklmnopqrstuvwxyz-_".toList

/-- Embedding of `reverse_string` (uidscan.cpp lines 47-50). -/
def reverseString (l : List Char) : List Char := l.reverse

/-- The environment the scanner talks to: given the lines the scanner has
written so far (most recent first), the reply available to the next
`read_line`, or `none` when nothing arrives within the timeout (or the
stream has ended).  Quantifying over `Oracle` quantifies over every
possible sequence of responder replies. -/
def Oracle : Type := List (List Char) → Option (List Char)

/-- What the scanner did with one probe; recorded in the ghost event log. -/
inductive SAct
  | silent | descend | skipChild | accept | dupe
deriving DecidableEq, Repr

/-- Ghost record of one iteration of the `scan` loop: the probe body
`next`, the `read_line` result `resp` (`[]` timeout, `['!']` empty line,
otherwise the line), the confirmation `read_line` result `resp2` when
`collision()` got past its length check, the `collision()` verdict `isCol`
(meaningless when `resp = []`), the value of `inner_index` and the action
taken. -/
structure Event where
  body : List Char
  resp : List Char
  resp2 : Option (List Char)
  isCol : Bool
  inner : Nat
  act : SAct
deriving DecidableEq, Repr

/-- Scanner-side interpreter state: the transcript of written lines
(most recent first), `found_uids`, the static `level` counter of `scan`
(uidscan.cpp line 150), and ghost instrumentation (`maxLevel`, `maxDepth`,
the event log, most recent first). -/
structure SState where
  hist : List (List Char)
  found : List (List Char)
  level : Int
  maxLevel : Int
  maxDepth : Nat
  log : List Event
deriving DecidableEq, Repr

/-- Embedding of `send` (uidscan.cpp lines 87-91): write one line. -/
def sendL (st : SState) (l : List Char) : SState := { st with hist := l :: st.hist }

/-- Embedding of `read_line` (uidscan.cpp lines 61-81) on top of the oracle:
timeout or EOF gives `""`, an empty line gives `"!"`, any other line is
returned. -/
def readL (oracle : Oracle) (st : SState) : List Char :=
  match oracle st.hist with
  | none => []
  | some [] => ['!']
  | some l => l

/-- Embedding of `send_and_recv` (uidscan.cpp lines 96-101). -/
def sendRecv (oracle : Oracle) (st : SState) (l : List Char) :
    List Char × SState :=
  let st := sendL st l
  (readL oracle st, st)

/-- The decision made by `collision` (uidscan.cpp lines 124-136) given the
first reply `s` and, when the length check passes, the reply `r2` read
after `mute(s)`. -/
def collisionVerdict (s : List Char) (r2 : Option (List Char)) : Bool :=
  if s = ['!'] ∨ s.length ≠ MAXLEN + 2 then true
  else
    match r2 with
    | some r => decide (r.length ≠ MAXLEN + 2) || decide (r ≠ s)
    | none => true

/-- Embedding of `collision` (uidscan.cpp lines 124-136): on a `"!"` or
wrong-length reply, report a collision at once; otherwise send
`SETADDR:<s>` (`mute`, lines 106-110), read one more line and accept only
an identical reply.
Returns the verdict, the confirmation reply when one was read, and the
updated transcript. -/
def collisionChk (oracle : Oracle) (st : SState) (s : List Char) :
    Bool × Option (List Char) × SState :=
  if s = ['!'] ∨ s.length ≠ MAXLEN + 2 then (true, none, st)
  else
    let st := sendL st (SETADDRp ++ s)
    let r := readL oracle st
    (collisionVerdict s (some r), some r, st)

/-- Append a ghost event to the log. -/
def logEv (st : SState) (e : Event) : SState := { st with log := e :: st.log }

/-- Control flow out of one iteration of the `for` loop of `scan`:
continue with the given `pos` and `inner_index`, descend into the subtree
(`.down next index posAfter`: recurse on `next` starting at `index`, then
continue at `posAfter` — `pos--; continue;` re-runs the same position),
or return from `scan` with the given value. -/
inductive IterNext
  | cont (pos inner : Nat)
  | down (next : List Char) (index posAfter : Nat)
  | ret (v : Nat)
deriving DecidableEq, Repr

/-- One iteration of the body of the `for` loop of `scan`
(uidscan.cpp lines 164-228), except for the recursive call itself, which
the interpreter `scanGo` performs on a `.down` outcome.  On `level == 0`
the probe is `s` itself and `pos` is set to `CHARSET.size()`
(lines 166-171).  Besides the updated state and the control outcome it
returns the ghost event describing the iteration, which `scanGo` appends
to the log. -/
def iterStep (oracle : Oracle) (pfx : List Char) (s : List Char)
    (pos : Nat) (h : pos < CHARSET.length) (inner : Nat) (st : SState) :
    SState × Event × IterNext :=
  let np : List Char × Nat :=
    if st.level = 0 then (s, CHARSET.length) else (s ++ [CHARSET.get ⟨pos, h⟩], pos)
  let next := np.1
  let pos' := np.2
  let pr := sendRecv oracle st (pfx ++ reverseString next)
  let resp := pr.1
  let st := pr.2
  if resp = [] then
    (st, ⟨next, resp, none, false, inner, .silent⟩, .cont (pos' + 1) 0)
  else
    let ck := collisionChk oracle st resp
    let isCol := ck.1
    let r2 := ck.2.1
    let st := ck.2.2
    if isCol then
      if inner < CHARSET.length then
        ({ st with level := st.level + 1 },
          ⟨next, resp, r2, true, inner, .descend⟩, .down next inner pos')
      else
        (st, ⟨next, resp, r2, true, inner, .skipChild⟩, .cont (pos' + 1) 0)
    else
      if resp ∈ st.found then
        (st, ⟨next, resp, r2, false, inner, .dupe⟩, .cont (pos' + 1) inner)
      else
        let st := { st with found := st.found ++ [resp] }
        if 1 < st.level then (st, ⟨next, resp, r2, false, inner, .accept⟩, .ret pos')
        else (st, ⟨next, resp, r2, false, inner, .accept⟩, .cont (pos' + 1) 0)

/-- A point in the control flow of `scan`: function entry (line 147) or
the head of its `for` loop (line 164).  `depth` is ghost: the number of
`scan` frames on the call stack. -/
inductive KFrame
  | enter (s : List Char) (index : Nat) (depth : Nat)
  | loop (s : List Char) (pos inner : Nat) (depth : Nat)
deriving DecidableEq, Repr

/-- Fuel-indexed interpreter for `scan` (uidscan.cpp lines 147-230).
Returns `none` when the fuel runs out (the interpretation so far is then a
faithful prefix of the execution), otherwise `some v` for the source's
return value.  Entry first checks the length limit, which decrements the
static `level` before returning (line 157) — in addition to the `level--`
the caller performs after every recursive call (line 198). -/
def scanGo (oracle : Oracle) (pfx : List Char) :
    Nat → KFrame → SState → Option Nat × SState
  | 0, _, st => (none, st)
  | fuel + 1, .enter s index depth, st =>
    let st := { st with maxLevel := max st.maxLevel st.level,
                        maxDepth := max st.maxDepth depth }
    if MAXLEN ≤ s.length then
      (some CHARSET.length, { st with level := st.level - 1 })
    else
      scanGo oracle pfx fuel (.loop s index 0 depth) st
  | fuel + 1, .loop s pos inner depth, st =>
    if h : pos < CHARSET.length then
      match iterStep oracle pfx s pos h inner st with
      | (st, e, nx) =>
        let st := logEv st e
        match nx with
        | .cont p i => scanGo oracle pfx fuel (.loop s p i depth) st
        | .ret v => (some v, st)
        | .down next index posAfter =>
          match scanGo oracle pfx fuel (.enter next index (depth + 1)) st with
          | (none, st) => (none, st)
          | (some innerRet, st) =>
            scanGo oracle pfx fuel
              (.loop s posAfter innerRet depth) { st with level := st.level - 1 }
    else (some pos, st)

/-- A scan of one prefix as `main` starts it (uidscan.cpp line 315):
`scan("", pfx, found_uids, 0)` from a fresh state with `level = 0`. -/
def scanRun (oracle : Oracle) (pfx : List Char) (fuel : Nat) :
    Option Nat × SState :=
  scanGo oracle pfx fuel (.enter [] 0 1) ⟨[], [], 0, 0, 0, []⟩

/-- The sibling responder wired up as an oracle: replay the transcript
(oldest first) through `respStep` and serve the output the responder
produced for the most recent line.  `some []` (an emitted empty line)
reaches the scanner's `read_line` as `"!"`. -/
def respReplay (pick : Nat → Nat → Nat) (uids : List (List Char)) :
    List (List Char) → RState × Option (List Char)
  | [] => (⟨uids, []⟩, none)
  | l :: rest =>
    let st := (respReplay pick uids rest).1
    respStep pick st l

/-- Oracle backed by a `uidresp` process holding `uids`. -/
def respOracle (uids : List (List Char)) : Oracle :=
  fun hist => (respReplay pick0 uids hist).2

/-! ## Specification-side predicates for the scanner, and concrete runs -/

/-- Number of reply characters the spec's mixture rule calls for: one per
position `i < maxLen` at which at least one UID has a character, stopping
at the first position where none does. -/
def mixtureSupport (uids : List (List Char)) (maxLen : Nat) : Nat :=
  ((List.range maxLen).takeWhile fun i => uids.any fun u => decide (i < u.length)).length

/-- Soundness predicate for one logged scanner iteration: a timeout leads
to no descent; the collision verdict on a non-timeout reply is exactly
`collisionVerdict`; a collision descends precisely when `inner_index` is
still below `CHARSET.size()` and is skipped otherwise; a non-collision is
a confirmed length-19 candidate that is accepted or was already found. -/
def eventOK (e : Event) : Prop :=
  (e.resp = [] → e.act = SAct.silent) ∧
  (e.resp ≠ [] → e.isCol = collisionVerdict e.resp e.resp2) ∧
  (e.resp ≠ [] → e.isCol = true →
    (if e.inner < CHARSET.length then e.act = SAct.descend else e.act = SAct.skipChild)) ∧
  (e.resp ≠ [] → e.isCol = false →
    e.resp.length = MAXLEN + 2 ∧ e.resp2 = some e.resp ∧
      (e.act = SAct.accept ∨ e.act = SAct.dupe))

instance (e : Event) : Decidable (eventOK e) := by
  unfold eventOK; infer_instance

/-- Precondition on a control-flow point: the loop of `scan` only ever runs
on a body shorter than `MAXLEN` (the entry guard returned otherwise). -/
def frameOK : KFrame → Prop
  | KFrame.enter _ _ _ => True
  | KFrame.loop s _ _ _ => s.length < MAXLEN

instance (f : KFrame) : Decidable (frameOK f) := by
  unfold frameOK; cases f <;> infer_instance

/-- A single known UID used for the composed scanner-against-responder run. -/
def uidA : List Char := "CB0000000000000000A".toList

/-- Composed run: the scanner driving the actual responder holding exactly
`uidA`, prefix `CB`.  Fuel 500 lets the run terminate. -/
def run5 : Option Nat × SState := scanRun (respOracle [uidA]) ("CB".toList) 500

/-- Reply sequence that produces a collision on the probes `CB` and `CB0`
and stays silent otherwise. -/
def oracle6 : Oracle := fun hist =>
  match hist with
  | [] => none
  | l :: _ => if l = ("CB".toList) ∨ l = ("CB0".toList) then some [] else none

/-- Run against `oracle6`.  After the subtree under body `"0"` is exhausted
the scanner re-probes the same position, sees the collision again with
`inner_index = 64`, and moves on without descending. -/
def run6 : Option Nat × SState := scanRun oracle6 ("CB".toList) 400

/-- Reply sequence that produces a collision exactly on the probes whose
body is all zeros (any length up to the full line length 19): the scanner
descends along the single path `"", "0", "00", …`. -/
def oracleT : Oracle := fun hist =>
  match hist with
  | [] => none
  | l :: _ =>
    if l.take 2 = ("CB".toList) ∧ (l.drop 2).all (fun c => c == '0') ∧ l.length ≤ 19
    then some [] else none

/-- Run against `oracleT`, truncated by fuel after the deepest descent has
been reached: the recorded ghost `maxDepth`/`maxLevel` are those of a
faithful prefix of the unbounded-fuel execution. -/
def runT : Option Nat × SState := scanRun oracleT ("CB".toList) 100

/-- Two known non-CB UIDs that both match the probe `AA`. -/
def uidsAB : List (List Char) :=
  ["AAAAAAAAAAAAAAAAAAB".toList, "AAAAAAAAAAAAAAAAAAC".toList]

/-- The UID list of the repository's own unit test `CollisionLengthLimit`
(tests/test_uidresp.cpp lines 25-29), which expects
`generateCollision(uids, 10)` to have size 10. -/
def testUids : List (List Char) :=
  ["ABCDEF1234567890ZZZ".toList, "XYZ1234567890QWERTY".toList,
    "1112223334445556667".toList]

/-! ## An adversarial reply sequence under which the scanner never
terminates: the child frame keeps "finding" fresh confirmable UIDs, so the
parent re-probes the same collision point (`pos--`) forever. -/

/-- The prefix `CB` handed to the scanner in the adversarial run. -/
def pfxCB : List Char := "CB".toList

/-- Wire form of the parent frame's probe: prefix plus reversed body `"0"`. -/
def p1probe : List Char := "CB0".toList

/-- Wire form of the child frame's probe: prefix plus reversed body `"00"`. -/
def p2probe : List Char := "CB00".toList

/-- Digit `i` of `n` in base 64 (least significant first). -/
def d64 (n i : Nat) : Nat := n / 64 ^ i % 64

/-- The `n`-th fresh fake UID: 19 characters over `CHARSET` encoding `n` in
base 64; injective for `n < 64 ^ 19`. -/
def freshU (n : Nat) : List Char :=
  (List.range 19).map fun i => CHARSET.getD (d64 n i) '?'

/-- The adversary: collide on the probes `CB`, `CB0`; answer the probe
`CB00` with a fresh length-19 UID (fresh by counting how often `CB00` was
probed before); echo the UID of every `SETADDR:` line (confirming every
candidate); stay silent otherwise. -/
def advOracle : Oracle := fun hist =>
  match hist with
  | [] => none
  | l :: rest =>
    if l = pfxCB ∨ l = p1probe then some []
    else if l = p2probe then some (freshU (rest.count p2probe))
    else if startsWith SETADDRp l then some (l.drop 8)
    else none

/-- Event logged by the parent frame in each adversarial cycle. -/
def eDescend : Event := ⟨['0'], ['!'], none, true, 0, SAct.descend⟩

/-- Event logged by the child frame in the `n`-th adversarial cycle. -/
def eAccept (n : Nat) : Event :=
  ⟨['0', '0'], freshU n, some (freshU n), false, 0, SAct.accept⟩

/-- State transformation of one adversarial cycle: three lines written, one
fake UID found, two events logged, level restored to 1. -/
def cycNext (n d : Nat) (st : SState) : SState :=
  ⟨(SETADDRp ++ freshU n) :: p2probe :: p1probe :: st.hist,
   st.found ++ [freshU n], 1, max st.maxLevel 2, max st.maxDepth (d + 1),
   eAccept n :: eDescend :: st.log⟩

/-- Invariant of the adversarial cycle at the level-1 loop frame. -/
def advInv (n : Nat) (st : SState) : Prop :=
  st.level = 1 ∧ st.found = (List.range n).map freshU ∧
    st.hist.count p2probe = n

/-- Event logged by the level-0 frame of the adversarial run. -/
def eTop : Event := ⟨[], ['!'], none, true, 0, SAct.descend⟩

/-- The state in which the adversarial run first reaches the cycling
level-1 loop frame (after the level-0 probe `CB` collided and descended). -/
def advS0 : SState := ⟨[pfxCB], [], 1, 1, 2, [eTop]⟩

/-! ## Helper lemmas -/

theorem take_eq_iff_get (a b : List Char) (k : Nat) :
    a.take k = b.take k ↔ ∀ i < k, a.get? i = b.get? i := by
  constructor
  · intro h i hik
    have h2 := congrArg (fun l => List.get? l i) h
    simp only [List.get?_take hik] at h2
    exact h2
  · intro h
    apply List.ext
    intro i
    by_cases hik : i < k
    · rw [List.get?_take hik, List.get?_take hik]
      exact h i hik
    · rw [List.get?_eq_none.mpr, List.get?_eq_none.mpr] <;>
        · rw [List.length_take]; omega

theorem drop_eq_iff_get (a b : List Char) (m n r : Nat)
    (ha : a.length ≤ m + r) (hb : b.length ≤ n + r) :
    a.drop m = b.drop n ↔ ∀ i < r, a.get? (m + i) = b.get? (n + i) := by
  constructor
  · intro h i hir
    have hlen := congrArg List.length h
    rw [List.length_drop, List.length_drop] at hlen
    by_cases hia : m + i < a.length
    · have h2 := congrArg (fun l => List.get? l i) h
      simp only [List.get?_drop] at h2
      exact h2
    · rw [List.get?_eq_none.mpr (by omega), List.get?_eq_none.mpr (by omega)]
  · intro h
    apply List.ext
    intro i
    rw [List.get?_drop, List.get?_drop]
    by_cases hir : i < r
    · exact h i hir
    · rw [List.get?_eq_none.mpr (by omega), List.get?_eq_none.mpr (by omega)]

theorem range_all_iff (f : Nat → Bool) (k : Nat) :
    ((List.range k).all f = true) ↔ ∀ i < k, f i = true := by
  simp [List.all_eq_true, List.mem_range]

/-- Workhorse for C1 and C10: the loop-based `matches` of the source agrees
with the slice-based wording of the spec. -/
theorem matchesUid_iff (p u : List Char) : matchesUid p u = true ↔ specMatch p u := by
  unfold matchesUid specMatch MATCH_LEFT
  by_cases hp : p = []
  · simp [hp]
  rw [if_neg hp]
  dsimp only
  by_cases hu : u.length < p.length
  · rw [if_pos hu]
    simp only [Bool.false_eq_true, false_iff]
    rintro ⟨-, hle, -, -⟩
    omega
  · rw [if_neg hu]
    have hle : p.length ≤ u.length := Nat.le_of_not_lt hu
    have hne : p.length ≠ 0 := fun h => hp (List.eq_nil_of_length_eq_zero h)
    rw [Bool.and_eq_true, range_all_iff, range_all_iff]
    by_cases h2 : 2 < p.length
    · rw [if_pos h2]
      have hmin : min 2 p.length = 2 := Nat.min_eq_left (by omega)
      rw [hmin]
      rw [take_eq_iff_get, drop_eq_iff_get p u 2 (u.length - (p.length - 2)) (p.length - 2)
        (by omega) (by omega)]
      constructor
      · rintro ⟨ha, hb⟩
        refine ⟨hp, hle, ?_, ?_⟩
        · intro i hi
          exact (beq_iff_eq).mp (ha i hi)
        · intro i hi
          exact (beq_iff_eq).mp (hb i hi)
      · rintro ⟨-, -, ha, hb⟩
        refine ⟨?_, ?_⟩
        · intro i hi
          exact (beq_iff_eq).mpr (ha i hi)
        · intro i hi
          exact (beq_iff_eq).mpr (hb i hi)
    · rw [if_neg h2]
      have hmin : min 2 p.length = p.length := Nat.min_eq_right (by omega)
      rw [hmin]
      have hdrk : p.length - p.length = 0 := by omega
      rw [hdrk]
      rw [take_eq_iff_get]
      constructor
      · rintro ⟨ha, -⟩
        refine ⟨hp, hle, fun i hi => (beq_iff_eq).mp (ha i hi), ?_⟩
        rw [Nat.sub_zero, List.drop_length, List.drop_length]
      · rintro ⟨-, -, ha, -⟩
        exact ⟨fun i hi => (beq_iff_eq).mpr (ha i hi),
          fun i hi => absurd hi (Nat.not_lt_zero i)⟩

theorem respStep_uids (pick : Nat → Nat → Nat) (st : RState) (line : List Char) :
    (respStep pick st line).1.uids = st.uids := by
  unfold respStep
  dsimp only
  repeat' split
  all_goals rfl

theorem respStep_muted_sub (pick : Nat → Nat → Nat) (st : RState) (line : List Char)
    (h : ∀ u ∈ st.muted, u ∈ st.uids) :
    ∀ u ∈ (respStep pick st line).1.muted, u ∈ st.uids := by
  unfold respStep
  dsimp only
  repeat' split
  all_goals intro u hu
  all_goals simp only [List.mem_append, List.mem_singleton] at hu ⊢
  case _ => exact h u hu
  all_goals first
    | exact h u hu
    | (rcases hu with hu | hu
       · exact h u hu
       · subst hu; assumption)
    | exact h u (List.mem_of_mem_erase hu)
    | cases hu

theorem foldResp_uids (pick : Nat → Nat → Nat) (lines : List (List Char)) :
    ∀ st : RState,
      (lines.foldl (fun st l => (respStep pick st l).1) st).uids = st.uids := by
  induction lines with
  | nil => intro st; rfl
  | cons l rest ih => intro st; rw [List.foldl_cons, ih, respStep_uids]

theorem foldResp_inv (pick : Nat → Nat → Nat) (lines : List (List Char)) :
    ∀ st : RState, (∀ u ∈ st.muted, u ∈ st.uids) →
      (∀ u ∈ (lines.foldl (fun st l => (respStep pick st l).1) st).muted,
        u ∈ (lines.foldl (fun st l => (respStep pick st l).1) st).uids) := by
  induction lines with
  | nil => intro st h; simpa using h
  | cons l rest ih =>
    intro st h
    rw [List.foldl_cons]
    apply ih
    intro u hu
    rw [respStep_uids]
    exact respStep_muted_sub pick st l h u hu

theorem respStep_setaddr_silent (pick : Nat → Nat → Nat) (st : RState)
    (u : List Char) : (respStep pick st (SETADDRp ++ u)).2 = none := by
  unfold respStep
  rw [if_neg (by simp [SETADDRp]), if_pos (by
    unfold startsWith SETADDRp
    rw [show ("SETADDR:".toList ++ u).take ("SETADDR:".toList).length =
      "SETADDR:".toList from List.take_left _ u]
    exact beq_self_eq_true _)]
  dsimp only
  split <;> rfl
theorem collisionChk_verdict (o : Oracle) (st : SState) (s : List Char) :
    (collisionChk o st s).1 = collisionVerdict s (collisionChk o st s).2.1 := by
  unfold collisionChk
  split
  · rename_i hc
    show true = collisionVerdict s none
    unfold collisionVerdict
    rw [if_pos hc]
  · rfl

theorem collisionChk_log (o : Oracle) (st : SState) (s : List Char) :
    (collisionChk o st s).2.2.log = st.log := by
  unfold collisionChk
  split <;> rfl

theorem verdict_false_facts (s : List Char) (r2 : Option (List Char))
    (h : collisionVerdict s r2 = false) :
    s.length = MAXLEN + 2 ∧ r2 = some s := by
  unfold collisionVerdict at h
  split at h
  · exact absurd h (by simp)
  · rename_i hc
    push_neg at hc
    cases r2 with
    | none => exact absurd h (by simp)
    | some r =>
      rw [Bool.or_eq_false_iff, decide_eq_false_iff_not, decide_eq_false_iff_not,
        not_not, not_not] at h
      exact ⟨hc.2, by rw [h.2]⟩

theorem iterStep_event_ok (oracle : Oracle) (pfx s : List Char) (pos : Nat)
    (h : pos < CHARSET.length) (inner : Nat) (st : SState) :
    eventOK (iterStep oracle pfx s pos h inner st).2.1 := by
  unfold iterStep
  dsimp only
  generalize (if st.level = 0 then (s, CHARSET.length)
    else (s ++ [CHARSET.get ⟨pos, h⟩], pos)) = np
  obtain ⟨next, pos'⟩ := np
  generalize (sendRecv oracle st (pfx ++ reverseString next)) = pr
  obtain ⟨resp, st1⟩ := pr
  by_cases hresp : resp = []
  · rw [if_pos hresp]
    exact ⟨fun _ => rfl, fun hne => absurd hresp hne, fun hne => absurd hresp hne,
      fun hne => absurd hresp hne⟩
  · rw [if_neg hresp]
    have hv := collisionChk_verdict oracle st1 resp
    generalize hck : collisionChk oracle st1 resp = ck at hv
    obtain ⟨isCol, r2, st2⟩ := ck
    dsimp only at hv ⊢
    by_cases hcol : isCol = true
    · rw [if_pos hcol]
      by_cases hinner : inner < CHARSET.length
      · rw [if_pos hinner]
        refine ⟨fun hr => absurd hr hresp, fun _ => ?_, fun _ _ => ?_, fun _ hf => ?_⟩
        · rw [← hv, hcol]
        · rw [if_pos hinner]
        · exact absurd hf (by simp)
      · rw [if_neg hinner]
        refine ⟨fun hr => absurd hr hresp, fun _ => ?_, fun _ _ => ?_, fun _ hf => ?_⟩
        · rw [← hv, hcol]
        · rw [if_neg hinner]
        · exact absurd hf (by simp)
    · rw [if_neg hcol]
      rw [Bool.not_eq_true] at hcol
      subst hcol
      have hflat := verdict_false_facts resp r2 hv.symm
      by_cases hmem : resp ∈ st2.found
      · rw [if_pos hmem]
        exact ⟨fun hr => absurd hr hresp, fun _ => hv, fun _ ht => absurd ht (by simp),
          fun _ _ => ⟨hflat.1, hflat.2, Or.inr rfl⟩⟩
      · rw [if_neg hmem]
        by_cases hlev : 1 < st2.level
        · rw [if_pos hlev]
          exact ⟨fun hr => absurd hr hresp, fun _ => hv, fun _ ht => absurd ht (by simp),
            fun _ _ => ⟨hflat.1, hflat.2, Or.inl rfl⟩⟩
        · rw [if_neg hlev]
          exact ⟨fun hr => absurd hr hresp, fun _ => hv, fun _ ht => absurd ht (by simp),
            fun _ _ => ⟨hflat.1, hflat.2, Or.inl rfl⟩⟩

theorem iterStep_log_eq (oracle : Oracle) (pfx s : List Char) (pos : Nat)
    (h : pos < CHARSET.length) (inner : Nat) (st : SState) :
    (iterStep oracle pfx s pos h inner st).1.log = st.log := by
  unfold iterStep
  dsimp only
  generalize (if st.level = 0 then (s, CHARSET.length)
    else (s ++ [CHARSET.get ⟨pos, h⟩], pos)) = np
  obtain ⟨next, pos'⟩ := np
  have hst1 : (sendRecv oracle st (pfx ++ reverseString next)).2.log = st.log := rfl
  generalize hpr : sendRecv oracle st (pfx ++ reverseString next) = pr
  rw [hpr] at hst1
  obtain ⟨resp, st1⟩ := pr
  by_cases hresp : resp = []
  · rw [if_pos hresp]
    exact hst1
  · rw [if_neg hresp]
    have hst2 := collisionChk_log oracle st1 resp
    generalize hck : collisionChk oracle st1 resp = ck at hst2
    obtain ⟨isCol, r2, st2⟩ := ck
    dsimp only at hst2 ⊢
    repeat' split
    all_goals (dsimp only; rw [hst2, hst1])

theorem iterStep_body_le (oracle : Oracle) (pfx s : List Char) (pos : Nat)
    (h : pos < CHARSET.length) (inner : Nat) (st : SState)
    (hs : s.length < MAXLEN) :
    (iterStep oracle pfx s pos h inner st).2.1.body.length ≤ MAXLEN := by
  unfold iterStep
  dsimp only
  by_cases hl : st.level = 0
  · rw [if_pos hl]
    dsimp only
    repeat' split
    all_goals (dsimp only; omega)
  · rw [if_neg hl]
    dsimp only
    have hlen : (s ++ [CHARSET.get ⟨pos, h⟩]).length = s.length + 1 := by
      simp
    repeat' split
    all_goals (dsimp only; rw [hlen]; omega)


theorem scanGo_log_ok (oracle : Oracle) (pfx : List Char) :
    ∀ (fuel : Nat) (frame : KFrame) (st : SState),
      (∀ e ∈ st.log, eventOK e) →
      ∀ e ∈ (scanGo oracle pfx fuel frame st).2.log, eventOK e := by
  intro fuel
  induction fuel with
  | zero => intro frame st h; exact h
  | succ fuel ih =>
    intro frame st h
    cases frame with
    | enter s index depth =>
      simp only [scanGo]
      split
      · exact h
      · exact ih _ _ h
    | loop s pos inner depth =>
      simp only [scanGo]
      split
      · rename_i hpos
        have hek := iterStep_event_ok oracle pfx s pos hpos inner st
        have hlg := iterStep_log_eq oracle pfx s pos hpos inner st
        generalize hit : iterStep oracle pfx s pos hpos inner st = it at hek hlg ⊢
        obtain ⟨st1, e1, nx⟩ := it
        dsimp only at hek hlg ⊢
        have hlog1 : ∀ e ∈ (logEv st1 e1).log, eventOK e := by
          intro e he
          rcases List.mem_cons.mp he with he | he
          · subst he; exact hek
          · rw [hlg] at he; exact h e he
        cases nx with
        | cont p i => exact ih _ _ hlog1
        | ret v => exact hlog1
        | down next index posAfter =>
          have hchild := ih (KFrame.enter next index (depth + 1)) (logEv st1 e1) hlog1
          rcases hcs : scanGo oracle pfx fuel (KFrame.enter next index (depth + 1))
            (logEv st1 e1) with ⟨r, st2⟩
          rw [hcs] at hchild
          dsimp only at hchild ⊢
          rw [hcs]
          cases r with
          | none => exact hchild
          | some innerRet => exact ih _ _ hchild
      · exact h

theorem scanGo_body_le (oracle : Oracle) (pfx : List Char) :
    ∀ (fuel : Nat) (frame : KFrame) (st : SState),
      frameOK frame →
      (∀ e ∈ st.log, e.body.length ≤ MAXLEN) →
      ∀ e ∈ (scanGo oracle pfx fuel frame st).2.log, e.body.length ≤ MAXLEN := by
  intro fuel
  induction fuel with
  | zero => intro frame st _ h; exact h
  | succ fuel ih =>
    intro frame st hfr h
    cases frame with
    | enter s index depth =>
      simp only [scanGo]
      split
      · exact h
      · rename_i hlim
        exact ih _ _ (by unfold frameOK; omega) h
    | loop s pos inner depth =>
      have hs : s.length < MAXLEN := hfr
      simp only [scanGo]
      split
      · rename_i hpos
        have hbd := iterStep_body_le oracle pfx s pos hpos inner st hs
        have hlg := iterStep_log_eq oracle pfx s pos hpos inner st
        generalize hit : iterStep oracle pfx s pos hpos inner st = it at hbd hlg ⊢
        obtain ⟨st1, e1, nx⟩ := it
        dsimp only at hbd hlg ⊢
        have hlog1 : ∀ e ∈ (logEv st1 e1).log, e.body.length ≤ MAXLEN := by
          intro e he
          rcases List.mem_cons.mp he with he | he
          · subst he; exact hbd
          · rw [hlg] at he; exact h e he
        cases nx with
        | cont p i => exact ih _ _ hs hlog1
        | ret v => exact hlog1
        | down next index posAfter =>
          have hchild := ih (KFrame.enter next index (depth + 1)) (logEv st1 e1)
            trivial hlog1
          rcases hcs : scanGo oracle pfx fuel (KFrame.enter next index (depth + 1))
            (logEv st1 e1) with ⟨r, st2⟩
          rw [hcs] at hchild
          dsimp only at hchild ⊢
          rw [hcs]
          cases r with
          | none => exact hchild
          | some innerRet => exact ih _ _ hs hchild
      · exact h

/-! ## The adversarial run: injectivity of the fresh-UID encoding,
one-cycle unfolding, and unbounded probe count -/
theorem freshU_length (n : Nat) : (freshU n).length = 19 := by
  simp [freshU]

theorem freshU_ne_nil (n : Nat) : freshU n ≠ [] := by
  intro h
  have := congrArg List.length h
  rw [freshU_length] at this
  simp at this

theorem freshU_ne_bang (n : Nat) : freshU n ≠ ['!'] := by
  intro h
  have := congrArg List.length h
  rw [freshU_length] at this
  simp at this

theorem d64_lt (n i : Nat) : d64 n i < 64 := Nat.mod_lt _ (by decide)

theorem charsetGetD_inj : ∀ i < 64, ∀ j < 64,
    CHARSET.getD i '?' = CHARSET.getD j '?' → i = j := by decide

theorem d64_shift (n i : Nat) : d64 (n / 64) i = d64 n (i + 1) := by
  unfold d64
  rw [Nat.div_div_eq_div_mul, pow_succ, Nat.mul_comm]

theorem base64_inj : ∀ (w n m : Nat), n < 64 ^ w → m < 64 ^ w →
    (∀ i < w, d64 n i = d64 m i) → n = m := by
  intro w
  induction w with
  | zero =>
    intro n m hn hm _
    rw [pow_zero] at hn hm
    omega
  | succ w ih =>
    intro n m hn hm h
    have h0 := h 0 (by omega)
    have hmod : n % 64 = m % 64 := by
      have : d64 n 0 = n % 64 := by unfold d64; rw [pow_zero, Nat.div_one]
      have h2 : d64 m 0 = m % 64 := by unfold d64; rw [pow_zero, Nat.div_one]
      rw [this, h2] at h0
      exact h0
    have hdiv : n / 64 = m / 64 := by
      apply ih
      · exact Nat.div_lt_of_lt_mul (by rw [← pow_succ'] ; exact hn)
      · exact Nat.div_lt_of_lt_mul (by rw [← pow_succ'] ; exact hm)
      · intro i hi
        rw [d64_shift, d64_shift]
        exact h (i + 1) (by omega)
    omega

theorem freshU_inj (n m : Nat) (hn : n < 64 ^ 19) (hm : m < 64 ^ 19)
    (h : freshU n = freshU m) : n = m := by
  apply base64_inj 19 n m hn hm
  intro i hi
  have h2 := congrArg (fun l => List.get? l i) h
  simp only [freshU, List.get?_map, List.get?_range hi, Option.map_some'] at h2
  exact charsetGetD_inj (d64 n i) (d64_lt n i) (d64 m i) (d64_lt m i)
    (Option.some.inj h2)

theorem freshU_not_mem (n : Nat) (hn : n < 64 ^ 19) :
    freshU n ∉ (List.range n).map freshU := by
  intro hmem
  obtain ⟨m, hm, heq⟩ := List.mem_map.mp hmem
  have hmn := List.mem_range.mp hm
  have := freshU_inj m n (by omega) hn heq
  omega

theorem readL_line (o : Oracle) (st : SState) (l : List Char)
    (h : o st.hist = some l) (hne : l ≠ []) : readL o st = l := by
  unfold readL
  rw [h]
  cases l with
  | nil => exact absurd rfl hne
  | cons a t => rfl

theorem advOracle_p1 (h : List (List Char)) : advOracle (p1probe :: h) = some [] := by
  unfold advOracle
  dsimp only
  rw [if_pos (Or.inr rfl)]

theorem advOracle_p0 (h : List (List Char)) : advOracle (pfxCB :: h) = some [] := by
  unfold advOracle
  dsimp only
  rw [if_pos (Or.inl rfl)]

theorem advOracle_p2 (h : List (List Char)) :
    advOracle (p2probe :: h) = some (freshU (h.count p2probe)) := by
  unfold advOracle
  dsimp only
  rw [if_neg (by decide), if_pos rfl]

theorem setaddr_ne_short (u : List Char) (l : List Char) (hl : l.length < 8) :
    SETADDRp ++ u ≠ l := by
  intro h
  have := congrArg List.length h
  simp [SETADDRp] at this
  omega

theorem advOracle_setaddr (u : List Char) (h : List (List Char)) :
    advOracle ((SETADDRp ++ u) :: h) = some u := by
  unfold advOracle
  dsimp only
  rw [if_neg (by
    rintro (hc | hc)
    · exact setaddr_ne_short u pfxCB (by decide) hc
    · exact setaddr_ne_short u p1probe (by decide) hc)]
  rw [if_neg (setaddr_ne_short u p2probe (by decide))]
  rw [if_pos (by
    unfold startsWith
    rw [show (SETADDRp ++ u).take (SETADDRp.length) = SETADDRp from
      List.take_left SETADDRp u]
    exact beq_self_eq_true _)]
  rw [show (SETADDRp ++ u).drop 8 = u from List.drop_left SETADDRp u]

theorem charset_get_zero (h : (0:Nat) < CHARSET.length) : CHARSET.get ⟨0, h⟩ = '0' := rfl

theorem iterStep_parent (h : (0:Nat) < CHARSET.length)
    (hist found : List (List Char)) (maxL : Int) (maxD : Nat) (log : List Event) :
    iterStep advOracle pfxCB [] 0 h 0 ⟨hist, found, 1, maxL, maxD, log⟩ =
      (⟨p1probe :: hist, found, 2, maxL, maxD, log⟩,
        eDescend, IterNext.down ['0'] 0 0) := by
  unfold iterStep
  dsimp only
  rw [if_neg (by decide : ¬(1:Int) = 0)]
  dsimp only
  rw [charset_get_zero h]
  have hprobe : pfxCB ++ reverseString ([] ++ ['0']) = p1probe := by decide
  rw [hprobe]
  unfold sendRecv sendL
  dsimp only
  have hrd : readL advOracle ⟨p1probe :: hist, found, 1, maxL, maxD, log⟩ = ['!'] := by
    unfold readL
    dsimp only
    rw [advOracle_p1]
  rw [hrd]
  rw [if_neg (by decide : ¬(['!'] : List Char) = [])]
  have hck : collisionChk advOracle ⟨p1probe :: hist, found, 1, maxL, maxD, log⟩ ['!'] =
      (true, none, ⟨p1probe :: hist, found, 1, maxL, maxD, log⟩) := by
    unfold collisionChk
    rw [if_pos (Or.inl rfl)]
  rw [hck]
  dsimp only
  rw [if_pos rfl, if_pos (by decide : (0:Nat) < CHARSET.length)]
  norm_num [eDescend]

theorem freshU_confirm (n : Nat) :
    collisionVerdict (freshU n) (some (freshU n)) = false := by
  unfold collisionVerdict
  rw [if_neg (by
    rintro (hc | hc)
    · exact freshU_ne_bang n hc
    · exact hc (by rw [freshU_length]; rfl))]
  simp [freshU_length, MAXLEN]

theorem iterStep_child (h : (0:Nat) < CHARSET.length) (n : Nat)
    (hist found : List (List Char)) (maxL : Int) (maxD : Nat) (log : List Event)
    (hcount : hist.count p2probe = n) (hnm : freshU n ∉ found) :
    iterStep advOracle pfxCB ['0'] 0 h 0 ⟨hist, found, 2, maxL, maxD, log⟩ =
      (⟨(SETADDRp ++ freshU n) :: p2probe :: hist, found ++ [freshU n], 2,
          maxL, maxD, log⟩,
        eAccept n, IterNext.ret 0) := by
  unfold iterStep
  dsimp only
  rw [if_neg (by decide : ¬(2:Int) = 0)]
  dsimp only
  rw [charset_get_zero h]
  have hprobe : pfxCB ++ reverseString (['0'] ++ ['0']) = p2probe := by decide
  rw [hprobe]
  unfold sendRecv sendL
  dsimp only
  have hrd : readL advOracle ⟨p2probe :: hist, found, 2, maxL, maxD, log⟩ =
      freshU n := by
    apply readL_line
    · show advOracle (p2probe :: hist) = some (freshU n)
      rw [advOracle_p2, hcount]
    · exact freshU_ne_nil n
  rw [hrd]
  rw [if_neg (freshU_ne_nil n)]
  have hck : collisionChk advOracle ⟨p2probe :: hist, found, 2, maxL, maxD, log⟩
      (freshU n) =
      (false, some (freshU n),
        ⟨(SETADDRp ++ freshU n) :: p2probe :: hist, found, 2, maxL, maxD, log⟩) := by
    unfold collisionChk
    rw [if_neg (by
      rintro (hc | hc)
      · exact freshU_ne_bang n hc
      · exact hc (by rw [freshU_length]; rfl))]
    unfold sendL
    dsimp only
    have hrd2 : readL advOracle
        ⟨(SETADDRp ++ freshU n) :: p2probe :: hist, found, 2, maxL, maxD, log⟩ =
        freshU n := by
      apply readL_line
      · exact advOracle_setaddr (freshU n) (p2probe :: hist)
      · exact freshU_ne_nil n
    rw [hrd2, freshU_confirm]
  rw [hck]
  dsimp only
  rw [if_neg (by decide : ¬(false = true)), if_neg hnm,
    if_pos (by decide : (1:Int) < 2)]
  rfl

theorem cycle_parent_unfold (f d : Nat) (hist found : List (List Char))
    (maxL : Int) (maxD : Nat) (log : List Event) :
    scanGo advOracle pfxCB (f + 1) (KFrame.loop [] 0 0 d)
        ⟨hist, found, 1, maxL, maxD, log⟩ =
      match scanGo advOracle pfxCB f (KFrame.enter ['0'] 0 (d + 1))
          ⟨p1probe :: hist, found, 2, maxL, maxD, eDescend :: log⟩ with
      | (none, st) => (none, st)
      | (some innerRet, st) =>
        scanGo advOracle pfxCB f (KFrame.loop [] 0 innerRet d)
          { st with level := st.level - 1 } := by
  conv_lhs => simp only [scanGo]
  rw [dif_pos (by decide : (0:Nat) < CHARSET.length)]
  rw [iterStep_parent (by decide) hist found maxL maxD log]
  rfl

theorem cycle_child_run (g d : Nat) (n : Nat) (hist found : List (List Char))
    (maxL : Int) (maxD : Nat) (log : List Event)
    (hcount : hist.count p2probe = n) (hnm : freshU n ∉ found) :
    scanGo advOracle pfxCB (g + 2) (KFrame.enter ['0'] 0 (d + 1))
        ⟨hist, found, 2, maxL, maxD, log⟩ =
      (some 0,
        ⟨(SETADDRp ++ freshU n) :: p2probe :: hist, found ++ [freshU n], 2,
          max maxL 2, max maxD (d + 1), eAccept n :: log⟩) := by
  conv_lhs => simp only [scanGo]
  rw [if_neg (by decide : ¬ MAXLEN ≤ (['0'] : List Char).length)]
  rw [dif_pos (by decide : (0:Nat) < CHARSET.length)]
  rw [iterStep_child (by decide) n hist found (max maxL 2) (max maxD (d + 1)) log
    hcount hnm]
  rfl

theorem cycle_eq (k n d : Nat) (hist found : List (List Char)) (maxL : Int)
    (maxD : Nat) (log : List Event)
    (hcount : hist.count p2probe = n) (hn : n < 64 ^ 19)
    (hfound : found = (List.range n).map freshU) :
    scanGo advOracle pfxCB (k + 2 + 1) (KFrame.loop [] 0 0 d)
        ⟨hist, found, 1, maxL, maxD, log⟩ =
      scanGo advOracle pfxCB (k + 2) (KFrame.loop [] 0 0 d)
        (cycNext n d ⟨hist, found, 1, maxL, maxD, log⟩) := by
  have hnm : freshU n ∉ found := by
    rw [hfound]
    exact freshU_not_mem n hn
  have hcount1 : (p1probe :: hist).count p2probe = n := by
    rw [List.count_cons]
    simp only [hcount]
    rw [if_neg (by decide : ¬(p1probe == p2probe) = true)]
    omega
  rw [cycle_parent_unfold (k + 2) d hist found maxL maxD log]
  rw [cycle_child_run k d n (p1probe :: hist) found maxL maxD (eDescend :: log)
    hcount1 hnm]
  unfold cycNext
  norm_num

theorem cycNext_count (n d : Nat) (st : SState)
    (hcount : st.hist.count p2probe = n) :
    (cycNext n d st).hist.count p2probe = n + 1 := by
  unfold cycNext
  dsimp only
  rw [List.count_cons, List.count_cons, List.count_cons]
  rw [hcount]
  rw [if_neg (by decide : ¬(p1probe == p2probe) = true)]
  rw [if_pos (by simp : (p2probe == p2probe) = true)]
  rw [if_neg (by
    intro hbeq
    have heq := eq_of_beq hbeq
    have hl := congrArg List.length heq
    rw [List.length_append, freshU_length] at hl
    have h4 : p2probe.length = 4 := by decide
    have h8 : SETADDRp.length = 8 := by decide
    omega)]

theorem cycNext_inv (n d : Nat) (st : SState) (hinv : advInv n st) :
    advInv (n + 1) (cycNext n d st) := by
  obtain ⟨hlev, hfound, hcount⟩ := hinv
  refine ⟨rfl, ?_, cycNext_count n d st hcount⟩
  unfold cycNext
  dsimp only
  rw [hfound, List.range_succ, List.map_append]
  rfl

theorem cycNext_log (n d : Nat) (st : SState) :
    (cycNext n d st).log.length = st.log.length + 2 := by
  unfold cycNext
  dsimp only
  rw [List.length_cons, List.length_cons]

theorem child_fuel1 (d : Nat) (st : SState) :
    scanGo advOracle pfxCB 1 (KFrame.enter ['0'] 0 (d + 1)) st =
      (none, { st with maxLevel := max st.maxLevel st.level,
                       maxDepth := max st.maxDepth (d + 1) }) := by
  conv_lhs => simp only [scanGo]
  rw [if_neg (by decide : ¬ MAXLEN ≤ (['0'] : List Char).length)]

theorem cycle_none_len : ∀ (f : Nat), ∀ (n d : Nat) (st : SState), advInv n st →
    n + f ≤ 64 ^ 19 →
    (scanGo advOracle pfxCB f (KFrame.loop [] 0 0 d) st).1 = none ∧
    st.log.length + 2 * (f - 2) ≤
      (scanGo advOracle pfxCB f (KFrame.loop [] 0 0 d) st).2.log.length := by
  intro f
  induction f using Nat.strong_induction_on with
  | _ f ih =>
    intro n d st hinv hb
    obtain ⟨hist, found, level, maxL, maxD, log⟩ := st
    obtain ⟨hlev, hfound, hcount⟩ := hinv
    dsimp only at hlev hfound hcount
    subst hlev
    match f with
    | 0 =>
      refine ⟨rfl, ?_⟩
      simp only [scanGo]
      omega
    | 1 =>
      rw [cycle_parent_unfold 0 d hist found maxL maxD log]
      constructor
      · simp only [scanGo]
      · simp only [scanGo, List.length_cons]
        omega
    | 2 =>
      rw [cycle_parent_unfold 1 d hist found maxL maxD log]
      rw [child_fuel1 d _]
      refine ⟨rfl, ?_⟩
      simp only [List.length_cons]
      omega
    | (k + 3) =>
      rw [cycle_eq k n d hist found maxL maxD log hcount (by omega) hfound]
      have hih := ih (k + 2) (by omega) (n + 1) d
        (cycNext n d ⟨hist, found, 1, maxL, maxD, log⟩)
        (cycNext_inv n d _ ⟨rfl, hfound, hcount⟩) (by omega)
      refine ⟨hih.1, ?_⟩
      have hlen := cycNext_log n d (⟨hist, found, 1, maxL, maxD, log⟩ : SState)
      dsimp only at hlen ⊢
      omega

theorem iterStep_top (h : (0:Nat) < CHARSET.length) :
    iterStep advOracle pfxCB [] 0 h 0 ⟨[], [], 0, 0, 1, []⟩ =
      (⟨[pfxCB], [], 1, 0, 1, []⟩, eTop, IterNext.down [] 0 64) := by
  rfl

theorem advRun_top1 (M : Nat) :
    scanGo advOracle pfxCB (M + 1) (KFrame.enter [] 0 1) ⟨[], [], 0, 0, 0, []⟩ =
      scanGo advOracle pfxCB M (KFrame.loop [] 0 0 1) ⟨[], [], 0, 0, 1, []⟩ := by
  conv_lhs => simp only [scanGo]
  rw [if_neg (by decide : ¬ MAXLEN ≤ ([] : List Char).length)]
  have hst : (⟨[], [], 0, max 0 0, max 0 1, []⟩ : SState) = ⟨[], [], 0, 0, 1, []⟩ := by
    decide
  rw [hst]

theorem advRun_top2 (M : Nat) :
    scanGo advOracle pfxCB (M + 1) (KFrame.loop [] 0 0 1) ⟨[], [], 0, 0, 1, []⟩ =
      match scanGo advOracle pfxCB M (KFrame.enter [] 0 2)
          ⟨[pfxCB], [], 1, 0, 1, [eTop]⟩ with
      | (none, st) => (none, st)
      | (some innerRet, st) =>
        scanGo advOracle pfxCB M (KFrame.loop [] 64 innerRet 1)
          { st with level := st.level - 1 } := by
  conv_lhs => simp only [scanGo]
  rw [dif_pos (by decide : (0:Nat) < CHARSET.length)]
  rw [iterStep_top (by decide)]
  rfl

theorem advRun_top3 (M : Nat) :
    scanGo advOracle pfxCB (M + 1) (KFrame.enter [] 0 2)
        ⟨[pfxCB], [], 1, 0, 1, [eTop]⟩ =
      scanGo advOracle pfxCB M (KFrame.loop [] 0 0 2) advS0 := by
  conv_lhs => simp only [scanGo]
  rw [if_neg (by decide : ¬ MAXLEN ≤ ([] : List Char).length)]
  have hst : (⟨[pfxCB], [], 1, max 0 1, max 1 2, [eTop]⟩ : SState) = advS0 := by
    decide
  rw [hst]

theorem advRun_eq (K : Nat)
    (hnone : (scanGo advOracle pfxCB K (KFrame.loop [] 0 0 2) advS0).1 = none) :
    scanRun advOracle pfxCB (K + 3) =
      (none, (scanGo advOracle pfxCB K (KFrame.loop [] 0 0 2) advS0).2) := by
  unfold scanRun
  show scanGo advOracle pfxCB (K + 2 + 1) (KFrame.enter [] 0 1) _ = _
  rw [advRun_top1 (K + 2)]
  rw [show (K:Nat) + 2 = K + 1 + 1 from rfl]
  rw [advRun_top2 (K + 1)]
  rw [advRun_top3 K]
  rcases hres : scanGo advOracle pfxCB K (KFrame.loop [] 0 0 2) advS0 with ⟨r, st2⟩
  rw [hres] at hnone
  dsimp only at hnone
  subst hnone
  rfl

theorem advRun_none (K : Nat)
    (hnone : (scanGo advOracle pfxCB K (KFrame.loop [] 0 0 2) advS0).1 = none) :
    (scanRun advOracle pfxCB (K + 3)).1 = none := by
  rw [advRun_eq K hnone]

theorem advRun_len (K : Nat)
    (hnone : (scanGo advOracle pfxCB K (KFrame.loop [] 0 0 2) advS0).1 = none) :
    (scanRun advOracle pfxCB (K + 3)).2.log.length =
      (scanGo advOracle pfxCB K (KFrame.loop [] 0 0 2) advS0).2.log.length := by
  rw [advRun_eq K hnone]

theorem advRun_nonterminating :
    (scanRun advOracle pfxCB (64 ^ 17 + 5)).1 = none ∧
    64 ^ 17 < (scanRun advOracle pfxCB (64 ^ 17 + 5)).2.log.length := by
  have hinv : advInv 0 advS0 := ⟨rfl, rfl, by decide⟩
  have hpow : (64:Nat) ^ 19 = 64 ^ 17 * 4096 := by
    rw [show (19:Nat) = 17 + 2 from rfl, pow_add]
    norm_num
  have hone : (1:Nat) ≤ 64 ^ 17 := Nat.one_le_pow 17 64 (by omega)
  have hcnl := cycle_none_len (64 ^ 17 + 2) 0 2 advS0 hinv (by omega)
  have hsplit : (64:Nat) ^ 17 + 5 = (64 ^ 17 + 2) + 3 := by omega
  constructor
  · rw [hsplit]
    exact advRun_none (64 ^ 17 + 2) hcnl.1
  · rw [hsplit, advRun_len (64 ^ 17 + 2) hcnl.1]
    have h2 := hcnl.2
    have hlen : advS0.log.length = 1 := rfl
    omega

/-- The dead mixture loop below the early return is not trivial: it does
depend on the entropy source, so the determinism of the responder (claim
C9) is due solely to the unconditional `return "";`. -/
theorem collisionMixture_varies :
    collisionMixture (fun _ _ => 0) [['A'], ['B']] 1 ≠
      collisionMixture (fun _ _ => 1) [['A'], ['B']] 1 := by decide

/-! ## Claim theorems -/

/-- C1: `matches(P,U)` returns true iff `P` is non-empty, `|P| ≤ |U|`, the
first `min(2,|P|)` characters of `P` equal the first characters of `U`,
and the remaining characters of `P` equal the last characters of `U`; in
particular an empty probe matches no UID. -/
theorem c1_match_soundness :
    ∀ p u : List Char, matchesUid p u = true ↔ specMatch p u :=
  fun p u => matchesUid_iff p u

/-- C2: on a non-control line, with `M` the filtered vector of known,
unmuted, matching UIDs (`matchedOf`, in `argv` order, duplicates kept as
the source's `std::vector` does), the responder emits nothing iff `M` is
empty, emits the sole element of `M` (as one flushed line) when `|M| = 1`,
and emits the collision reply when `|M| ≥ 2`. -/
theorem c2_reply_policy (pick : Nat → Nat → Nat) (st : RState) (line : List Char)
    (h0 : line ≠ []) (h1 : startsWith SETADDRp line = false)
    (h2 : startsWith RESETADDRp line = false) (h3 : line ≠ RESETALLp) :
    ((respStep pick st line).2 = none ↔ matchedOf st line = []) ∧
    ((matchedOf st line).length = 1 →
      (respStep pick st line).2 = some ((matchedOf st line).getD 0 [])) ∧
    (2 ≤ (matchedOf st line).length →
      (respStep pick st line).2 =
        some (if headIsCB (matchedOf st line) then []
              else generateCollision pick (matchedOf st line) 19)) := by
  unfold respStep
  rw [if_neg h0, if_neg (by rw [h1]; exact Bool.false_ne_true),
    if_neg (by rw [h2]; exact Bool.false_ne_true), if_neg h3]
  cases hM : matchedOf st line with
  | nil => simp [hM]
  | cons a tl =>
    cases tl with
    | nil => simp [hM]
    | cons b tl2 => simp [hM]

/-- Witness for C2: a responder knowing exactly `XY123` answers the probe
`XY` with that UID. -/
theorem c2_reply_policy_witness :
    (respStep pick0 ⟨[("XY123".toList)], []⟩ ("XY".toList)).2 =
      some ("XY123".toList) := by
  have h := c2_reply_policy pick0 ⟨[("XY123".toList)], []⟩ ("XY".toList)
    (by decide) (by decide) (by decide) (by decide)
  have h1 := h.2.1 (by decide)
  simpa using h1

/-- C3 (code bug): with two known non-CB UIDs both matching the probe `AA`
the responder emits the empty line anyway, because `generateCollision` is
stubbed to return `""`; the claim's "empty iff every UID in `M` begins
with CB" fails in the only-if direction. -/
theorem c3_collision_reply_empty_without_cb :
    (respStep pick0 ⟨uidsAB, []⟩ ("AA".toList)).2 = some [] ∧
    (uidsAB.all fun u => startsWith ("CB".toList) u) = false ∧
    (matchedOf ⟨uidsAB, []⟩ ("AA".toList)).length = 2 := by
  exact ⟨by decide, by decide, by decide⟩

/-- C4 (code bug): on the UID list of the repository's own unit test
`CollisionLengthLimit`, every position below `maxLen = 10` has a candidate
character (the spec's mixture would have length 10), yet
`generateCollision` returns the empty string. -/
theorem c4_collision_mixture_stubbed :
    generateCollision pick0 testUids 10 = [] ∧ mixtureSupport testUids 10 = 10 := by
  exact ⟨rfl, by decide⟩

/-- C5 (code bug): the responder never answers a `SETADDR:` line, and in the
composed single-device run the scanner's `collision()` sends
`SETADDR:<candidate>` — not the probe pattern — after the length-19 reply,
reads silence, reclassifies the true UID as a collision and finishes with
an empty `found_uids`. -/
theorem c5_confirmation_is_mute_not_reprobe :
    (∀ (pick : Nat → Nat → Nat) (st : RState) (u : List Char),
      (respStep pick st (SETADDRp ++ u)).2 = none) ∧
    run5.1 = some 64 ∧
    run5.2.found = [] ∧
    run5.2.log.getLast? = some ⟨[], uidA, some [], true, 0, SAct.descend⟩ ∧
    run5.2.hist.reverse.get? 1 = some (SETADDRp ++ uidA) ∧
    uidA.length = MAXLEN + 2 :=
  ⟨respStep_setaddr_silent, by decide, by decide, by decide, by decide, by decide⟩

/-- C6 (amended): in every scanner run, every logged probe iteration is
classified as `eventOK` states: a timeout is silence with no descent; a
non-timeout reply is a collision exactly per `collisionVerdict` (`"!"`,
wrong length, or failed confirmation); a collision descends iff
`inner_index < |CHARSET|` and is skipped otherwise; a non-collision is a
confirmed length-19 candidate that is accepted or already known. -/
theorem c6_reply_classification :
    ∀ (oracle : Oracle) (pfx : List Char) (fuel : Nat) (frame : KFrame)
      (st : SState), (∀ e ∈ st.log, eventOK e) →
      ∀ e ∈ (scanGo oracle pfx fuel frame st).2.log, eventOK e :=
  fun oracle pfx => scanGo_log_ok oracle pfx

set_option maxRecDepth 100000 in
/-- Witness for C6: the classification holds of a concrete logged event of
the `oracle6` run (a repeated collision met with `inner_index = 64`). -/
theorem c6_reply_classification_witness :
    eventOK ⟨['0'], ['!'], none, true, 64, SAct.skipChild⟩ :=
  c6_reply_classification oracle6 ("CB".toList) 400 (KFrame.enter [] 0 1)
    ⟨[], [], 0, 0, 0, []⟩ (by intro e he; cases he)
    ⟨['0'], ['!'], none, true, 64, SAct.skipChild⟩ (by decide)

set_option maxRecDepth 100000 in
/-- Counterexample for C6 as stated: in the `oracle6` run the scanner
receives the explicit collision marker (an empty reply line) at chronological
step 66 and does *not* descend — it skips the exhausted child subtree. -/
theorem c6_collision_no_descent :
    run6.2.log.reverse.get? 66 =
      some ⟨['0'], ['!'], none, true, 64, SAct.skipChild⟩ ∧
    SAct.skipChild ≠ SAct.descend ∧ run6.1 = some 64 := by
  exact ⟨by decide, by decide, by decide⟩

/-- C7 (amended): for every sequence of responder replies and any fuel, every
probe body the scanner sends (and logs) has length at most `MAXLEN = 17`. -/
theorem c7_probe_body_bound :
    ∀ (oracle : Oracle) (pfx : List Char) (fuel : Nat) (frame : KFrame)
      (st : SState), frameOK frame →
      (∀ e ∈ st.log, e.body.length ≤ MAXLEN) →
      ∀ e ∈ (scanGo oracle pfx fuel frame st).2.log, e.body.length ≤ MAXLEN :=
  fun oracle pfx => scanGo_body_le oracle pfx

set_option maxRecDepth 100000 in
/-- Witness for C7's amended bound at a concrete run and logged event. -/
theorem c7_probe_body_bound_witness :
    (⟨[], ['!'], none, true, 0, SAct.descend⟩ : Event).body.length ≤ MAXLEN :=
  c7_probe_body_bound oracle6 ("CB".toList) 400 (KFrame.enter [] 0 1)
    ⟨[], [], 0, 0, 0, []⟩ trivial (by intro e he; cases he)
    ⟨[], ['!'], none, true, 0, SAct.descend⟩ (by decide)

set_option maxRecDepth 100000 in
/-- Counterexample for C7 as stated: against `oracleT` the interpreter
reaches 19 nested `scan` frames (static `level` 18), exceeding the claimed
recursion-depth bound `MAXLEN = 17`; and against `advOracle` — whose child
frame keeps confirming fresh fake UIDs, making the parent re-probe the same
position (`pos--`) forever — the run is still unfinished after `64 ^ 17`
fuel, having sent more than `64 ^ 17` probes, refuting the claimed probe
bound. -/
theorem c7_depth_exceeds_bound :
    (runT.2.maxDepth = 19 ∧ runT.2.maxLevel = 18 ∧ MAXLEN < runT.2.maxDepth) ∧
    ((scanRun advOracle pfxCB (64 ^ 17 + 5)).1 = none ∧
      64 ^ 17 < (scanRun advOracle pfxCB (64 ^ 17 + 5)).2.log.length) :=
  ⟨⟨by decide, by decide, by decide⟩, advRun_nonterminating⟩

/-- C8: starting from an empty mute set, after any sequence of input lines
every muted UID is one of the command-line UIDs. -/
theorem c8_mute_subset :
    ∀ (pick : Nat → Nat → Nat) (uids lines : List (List Char)) (u : List Char),
      u ∈ (runResponder pick uids lines).muted → u ∈ uids := by
  intro pick uids lines u hu
  have h := foldResp_inv pick lines ⟨uids, []⟩ (by intro v hv; cases hv) u hu
  rw [foldResp_uids] at h
  exact h

/-- Witness for C8: after muting `AB`, the muted UID `AB` is a known UID. -/
theorem c8_mute_subset_witness :
    ("AB".toList ∈ (runResponder pick0 [("AB".toList)]
      [("SETADDR:AB".toList)]).muted) ∧
    "AB".toList ∈ [("AB".toList)] :=
  ⟨by decide, c8_mute_subset pick0 [("AB".toList)] [("SETADDR:AB".toList)]
    ("AB".toList) (by decide)⟩

/-- C9: the responder's reply is deterministic — it does not depend on the
entropy source — because `generateCollision` returns the empty string
unconditionally (its mixture path is dead code). -/
theorem c9_reply_deterministic :
    ∀ (pick1 pick2 : Nat → Nat → Nat) (uids : List (List Char))
      (maxLen : Nat) (st : RState) (line : List Char),
      generateCollision pick1 uids maxLen = [] ∧
      respStep pick1 st line = respStep pick2 st line :=
  fun _ _ _ _ _ _ => ⟨rfl, rfl⟩

/-- C10: lengthening a probe of length at least 2 by inserting a character
right after its two-character prefix only shrinks the set of matching UIDs:
if the longer probe matches `U`, so does the original. -/
theorem c10_refine_mono (p u : List Char) (c : Char) (h2 : 2 ≤ p.length)
    (h : matchesUid (p.take 2 ++ c :: p.drop 2) u = true) :
    matchesUid p u = true := by
  rw [matchesUid_iff] at h ⊢
  obtain ⟨hne, hlen, htake, hdrop⟩ := h
  have hqlen : (p.take 2 ++ c :: p.drop 2).length = p.length + 1 := by
    simp [List.length_take, List.length_drop]
    omega
  rw [hqlen] at hlen htake hdrop
  have hminq : min 2 (p.length + 1) = 2 := Nat.min_eq_left (by omega)
  have hminp : min 2 p.length = 2 := Nat.min_eq_left h2
  rw [hminq] at htake hdrop
  have htk : (p.take 2 ++ c :: p.drop 2).take 2 = p.take 2 :=
    List.take_left' (by rw [List.length_take]; omega)
  have hdk : (p.take 2 ++ c :: p.drop 2).drop 2 = c :: p.drop 2 :=
    List.drop_left' (by rw [List.length_take]; omega)
  rw [htk] at htake
  rw [hdk] at hdrop
  refine ⟨List.length_pos.mp (by omega), by omega, ?_, ?_⟩
  · rw [hminp]
    exact htake
  · rw [hminp]
    have hstep : p.drop 2 = (c :: p.drop 2).tail := rfl
    rw [hstep, hdrop, List.tail_drop]
    congr 1
    omega

/-- Witness for C10 at a concrete probe, character and UID. -/
theorem c10_refine_mono_witness : matchesUid ("AB12".toList) ("ABZ12".toList) = true :=
  c10_refine_mono ("AB12".toList) ("ABZ12".toList) 'Z' (by decide) (by decide)
